import Mathlib

/-!
Verification of the StarlingX sysinv Kubernetes application operator
(`sysinv/conductor/kube_app.py`) against its natural-language specification.

The Python code is shallowly embedded: Python dictionaries become
association lists (`Dict`), the status enumeration becomes the inductive
`AppStatus`, exceptions become `Option`/explicit outcome fields, and
external collaborators (the Armada deployment tool, the docker registry,
the database, the cluster API) become boolean or functional oracles passed
as inputs.  Each definition mirrors one function of the source file.
-/

namespace KubeApp

/-- Lifecycle statuses of an application Status Record
(the `constants.APP_*` status strings used by `kube_app.py`). -/
inductive AppStatus where
  | uploadInProgress
  | uploadSuccess
  | uploadFailure
  | applyInProgress
  | applySuccess
  | applyFailure
  | updateInProgress
  | recoverInProgress
  | removeInProgress
  | removeFailure
deriving DecidableEq

/-- The five `-in-progress` statuses checked by `_clear_stuck_applications`
(`kube_app.py`, lines 178-182). -/
def inProgressStatuses : List AppStatus :=
  [.uploadInProgress, .applyInProgress, .updateInProgress,
   .recoverInProgress, .removeInProgress]

/-! ## Status Record updates (`_update_app_status` / `Application.update_status`) -/

/-- The persisted fields of a Status Record touched by
`Application.update_status`: the lifecycle status string and the free-text
progress string. -/
structure KubeAppDbRecord where
  status : String
  progress : String
deriving DecidableEq

/-- Embedding of `Application.update_status` (`kube_app.py`, lines 2312-2316):
the status field is always assigned; the progress field is assigned only when
`new_progress` is truthy in Python, i.e. neither `None` nor the empty string. -/
def update_status (rec : KubeAppDbRecord) (new_status : String)
    (new_progress : Option String) : KubeAppDbRecord :=
  { status := new_status,
    progress :=
      match new_progress with
      | some p => if p ≠ "" then p else rec.progress
      | none => rec.progress }

/-- Embedding of `AppOperator._update_app_status` (`kube_app.py`, lines
296-303): a `None` status argument is replaced by the record's current
status before delegating to `update_status`. -/
def updateAppStatus (rec : KubeAppDbRecord) (new_status : Option String)
    (new_progress : Option String) : KubeAppDbRecord :=
  update_status rec (new_status.getD rec.status) new_progress

/-! ## `_abort_operation` and `_clear_stuck_applications` -/

/-- Effect of `_abort_operation` on the Status Record and the fault/alarm
notifier: the status that gets written, whether a failure alarm is raised,
and whether the app alarm is cleared. -/
structure AbortResult where
  newStatus : AppStatus
  alarmRaised : Bool
  alarmCleared : Bool
deriving DecidableEq

/-- Embedding of `AppOperator._abort_operation` (`kube_app.py`, lines
305-381).  `platformManaged` stands for
`app.name in constants.HELM_APPS_PLATFORM_MANAGED` (the constants module is
an external collaborator, so membership is a parameter).  `reset` is the
`reset_status` keyword.  The `user_initiated` keyword only changes the
recorded progress text, not the status, alarm, or write behaviour, so it is
not a parameter here.  A `none` result is the early `return` of the final
`else` branch (unknown status): nothing is written. -/
def abortOperation (status : AppStatus) (platformManaged : Bool)
    (reset : Bool) : Option AbortResult :=
  if status = .uploadInProgress then
    some ⟨.uploadFailure, true, false⟩
  else if status = .applyInProgress ∨ status = .updateInProgress ∨
      status = .recoverInProgress then
    if reset ∧ platformManaged then
      some ⟨.uploadSuccess, false, true⟩
    else
      some ⟨.applyFailure, true, false⟩
  else if status = .removeInProgress then
    some ⟨.removeFailure, true, false⟩
  else
    none

/-- A persisted application row as seen by `_clear_stuck_applications`:
its name and its status. -/
structure DbApp where
  name : String
  status : AppStatus
deriving DecidableEq

/-- Treatment of a single row by the loop of `_clear_stuck_applications`
(`kube_app.py`, lines 177-185): rows in an `-in-progress` status are passed
to `_abort_operation(reset_status=True)`, the others are left alone. -/
def clearStuckApp (pm : String → Bool) (app : DbApp) : DbApp :=
  if app.status ∈ inProgressStatuses then
    match abortOperation app.status (pm app.name) true with
    | some r => { app with status := r.newStatus }
    | none => app
  else app

/-- Result of `_clear_stuck_applications`: the rewritten rows and the fact
that the leftover Armada coordination locks were cleared. -/
structure ClearStuckResult where
  apps : List DbApp
  armadaLocksCleared : Bool
deriving DecidableEq

/-- Embedding of `AppOperator._clear_stuck_applications` (`kube_app.py`,
lines 175-191): every row is processed by `clearStuckApp`, then
`_clear_armada_locks` deletes the Armada lock custom resource. -/
def clearStuckApplications (pm : String → Bool) (apps : List DbApp) :
    ClearStuckResult :=
  ⟨apps.map (clearStuckApp pm), true⟩

/-! ## `perform_app_abort` -/

/-- Observable effect of `perform_app_abort`: whether the Abort Registry
flag was set, whether the Armada container was stopped, and whether the
Armada locks were cleared. -/
structure AbortRequestOutcome where
  abortFlagSet : Bool
  armadaStopped : Bool
  locksCleared : Bool
deriving DecidableEq

/-- Embedding of `AppOperator.perform_app_abort` (`kube_app.py`, lines
2182-2216): the abort flag is set and the Armada service stopped exactly
when the persisted status is apply-, update- or remove-in-progress;
any other status makes the request a no-op. -/
def performAppAbort (status : AppStatus) : AbortRequestOutcome :=
  if status = .applyInProgress ∨ status = .updateInProgress ∨
      status = .removeInProgress then
    ⟨true, true, true⟩
  else
    ⟨false, false, false⟩

/-! ## `perform_app_remove` -/

/-- A Release Version Record: release name, namespace and currently
deployed revision (`version` in the sysinv database, 0 = never deployed). -/
structure ReleaseRecord where
  release : String
  nspace : String
  version : Nat
deriving DecidableEq

/-- Inputs of one `perform_app_remove` run.  The boolean oracles stand for
the external collaborators: `preStepsOk` is false when the chart-list
parsing or status update before the Armada request raises;
`armadaDeleteOk` is the result of `_make_armada_request_with_monitor`
for the delete operation; `cleanupResourcesOk` is false when one of the
`_delete_*` cluster-resource calls (run only for system apps) raises. -/
structure RemoveInput where
  systemApp : Bool
  preStepsOk : Bool
  armadaDeleteOk : Bool
  cleanupResourcesOk : Bool
  releases : List ReleaseRecord
  inactiveExists : Bool
deriving DecidableEq

/-- Observable outcome of `perform_app_remove`. `raised` records an
exception escaping the method; `finalStatus` is the last status written
(`none` when the run raised before writing a terminal status);
`abortEntryPresent` tells whether the Abort Registry still holds the
application's entry when the call ends. -/
structure RemoveOutcome where
  raised : Bool
  releases : List ReleaseRecord
  inactiveDestroyed : Bool
  finalStatus : Option AppStatus
  alarmRaised : Bool
  alarmCleared : Bool
  abortEntryPresent : Bool
  rc : Option Bool
deriving DecidableEq

/-- Embedding of `AppOperator.perform_app_remove` (`kube_app.py`, lines
2093-2154).  On a successful Armada delete every release record with a
non-zero revision is zeroed and an existing inactive database record is
destroyed; a later cluster-resource cleanup failure (system apps only)
routes through `_abort_operation`, which writes remove-failure and raises
the remove-failure alarm; otherwise the status becomes upload-success and
the app alarm is cleared.  On a failed Armada delete nothing is zeroed and
`_abort_operation` writes remove-failure with its alarm.  The method has no
try/finally, so an exception in the steps before the Armada request leaves
the Abort Registry entry in place. -/
def performAppRemove (inp : RemoveInput) : RemoveOutcome :=
  if ¬inp.preStepsOk then
    ⟨true, inp.releases, false, none, false, false, true, none⟩
  else if inp.armadaDeleteOk then
    let releases' := inp.releases.map
      (fun r => if r.version ≠ 0 then { r with version := 0 } else r)
    let destroyed := inp.inactiveExists
    if inp.systemApp ∧ ¬inp.cleanupResourcesOk then
      ⟨false, releases', destroyed, some .removeFailure, true, false, false,
       some false⟩
    else
      ⟨false, releases', destroyed, some .uploadSuccess, false, true, false,
       some true⟩
  else
    ⟨false, inp.releases, false, some .removeFailure, true, false, false,
     some false⟩

/-! ## `_perform_app_recover` -/

/-- Inputs of one `_perform_app_recover` run.  Each boolean oracle is one
step of the `try` block, in source order: cleaning the new version's files
(`_cleanup`), reporting patch dependencies, destroying the new version's
database record, re-uploading the old charts, preparing the chart list and
override files for the Armada request, the Armada apply request itself, and
deleting the extra releases of the new version. -/
structure RecoverInput where
  armadaRequired : Bool
  cleanupNewOk : Bool
  patchReportOk : Bool
  destroyNewOk : Bool
  uploadChartsOk : Bool
  prepareChartsOk : Bool
  armadaApplyOk : Bool
  deleteExtraOk : Bool
deriving DecidableEq

/-- The three shapes of final progress text written by
`_perform_app_recover`: recovery completed, recovery completed but cleanup
of the new version failed (the broad `except` path), and recovery aborted
(the Armada apply for the old version failed). -/
inductive RecoverProgress where
  | completed
  | cleanupFailed
  | recoverAborted
deriving DecidableEq

/-- Outcome of `_perform_app_recover` for the old application version,
plus whether the new version's files and database record were destroyed
(steps 1-3 of the `try` block all ran and succeeded). -/
structure RecoverOutcome where
  oldStatus : AppStatus
  progressTag : RecoverProgress
  newRecordDestroyed : Bool
deriving DecidableEq

/-- Embedding of `AppOperator._perform_app_recover` (`kube_app.py`, lines
1538-1632).  Any exception inside the `try` block lands in the broad
`except`, which writes apply-success with a cleanup-failed progress note
and returns; apply-failure is written only when the flow reaches the
Armada apply request and that request fails. -/
def performAppRecover (inp : RecoverInput) : RecoverOutcome :=
  if ¬inp.cleanupNewOk then ⟨.applySuccess, .cleanupFailed, false⟩
  else if ¬inp.patchReportOk then ⟨.applySuccess, .cleanupFailed, false⟩
  else if ¬inp.destroyNewOk then ⟨.applySuccess, .cleanupFailed, false⟩
  else if ¬inp.uploadChartsOk then ⟨.applySuccess, .cleanupFailed, true⟩
  else if inp.armadaRequired then
    if ¬inp.prepareChartsOk then ⟨.applySuccess, .cleanupFailed, true⟩
    else if inp.armadaApplyOk then
      if inp.deleteExtraOk then ⟨.applySuccess, .completed, true⟩
      else ⟨.applySuccess, .cleanupFailed, true⟩
    else ⟨.applyFailure, .recoverAborted, true⟩
  else ⟨.applySuccess, .completed, true⟩

/-- Input showing C5 false as stated: a system application whose Armada
delete succeeds but whose cluster-resource cleanup then raises. -/
def c5FailingInput : RemoveInput :=
  ⟨true, true, true, false, [⟨"rel1", "ns1", 3⟩], false⟩

/-- Input showing C6 false as stated: recovery whose very first cleanup
step (removing the new version's files) raises. -/
def c6FailingInput : RecoverInput :=
  ⟨true, false, true, true, true, true, true, true⟩

/-! ## Abort Registry lifecycle in `perform_app_apply` / `perform_app_update` -/

/-- Outcome of `perform_app_apply`: `result` is `none` when the method
raises (`KubeAppApplyFailure`), otherwise the returned boolean;
`abortEntryPresent` tells whether the Abort Registry holds the
application's entry when the call ends. -/
structure ApplyOutcome where
  result : Option Bool
  abortEntryPresent : Bool
deriving DecidableEq

/-- Embedding of the control flow of `AppOperator.perform_app_apply`
(`kube_app.py`, lines 1826-1977) restricted to what decides the Abort
Registry lifecycle.  When `fromUpdate` is false the entry is registered at
the start (line 1832).  `phase1Ok` covers the first `try` block (chart
parsing, resource creation, override generation, image download): its
`except` deregisters (when not called from update) and re-raises.
`ready` is the `helm_files or armada_files` test.  `armadaOk` is the
Armada apply request, `phase2Ok` the steps between that request and
`return True` (release-version refresh, status write).  The success branch
returns at line 1961 without passing any deregistration call, so the entry
stays present; every failure branch reaches line 1972-1975 and
deregisters when not called from update. -/
def performAppApply (fromUpdate phase1Ok ready armadaOk phase2Ok : Bool) :
    ApplyOutcome :=
  if ¬phase1Ok then ⟨none, fromUpdate⟩
  else if ready ∧ armadaOk ∧ phase2Ok then ⟨some true, true⟩
  else ⟨some false, fromUpdate⟩

/-- Outcome of `perform_app_update`: whether it returned `True` (as
opposed to the `None` returned through the recover paths), and whether the
Abort Registry entry is still present at the end. -/
structure UpdateOutcome where
  returnedTrue : Bool
  abortEntryPresent : Bool
deriving DecidableEq

/-- Embedding of the control flow of `AppOperator.perform_app_update`
(`kube_app.py`, lines 1979-2091) restricted to the Abort Registry
lifecycle.  The entry is registered at line 2012; the whole body is a
`try` whose `finally` (line 2087-2088) deregisters it, so the entry is
gone on every path: upload failure (routed to recover), apply failure or
abort (routed to recover), cleanup failure (broad except), and success. -/
def performAppUpdate (uploadOk applyRaised applyResult cleanupOldOk : Bool) :
    UpdateOutcome :=
  if ¬uploadOk then ⟨false, false⟩
  else if applyRaised then ⟨false, false⟩
  else if ¬applyResult then ⟨false, false⟩
  else if ¬cleanupOldOk then ⟨true, false⟩
  else ⟨true, false⟩

/-! ## `_download_images` retry loop -/

/-- Number of whole-batch download attempts (`MAX_DOWNLOAD_ATTEMPTS`,
`kube_app.py` line 72). -/
def MAX_DOWNLOAD_ATTEMPTS : Nat := 3

/-- Seconds slept between attempts (`DOWNLOAD_WAIT_BEFORE_RETRY`,
`kube_app.py` line 73). -/
def DOWNLOAD_WAIT_BEFORE_RETRY : Nat := 30

/-- Reason carried by the `KubeAppApplyFailure` raised from the retry loop
of `_download_images`: either the literal "operation aborted by user."
(line 793) or `constants.APP_PROGRESS_IMAGES_DOWNLOAD_FAILED` (line 813). -/
inductive FailureReason where
  | abortedByUser
  | imagesDownloadFailed
deriving DecidableEq

/-- Outcome of the retry loop of `_download_images`: success, or a raised
`KubeAppApplyFailure` with its reason.  `slept` is the total number of
seconds spent in `time.sleep` between attempts. -/
inductive ImagesOutcome where
  | success (slept : Nat)
  | applyFailure (reason : FailureReason) (slept : Nat)
deriving DecidableEq

/-- Embedding of the `for idx in reversed(range(MAX_DOWNLOAD_ATTEMPTS))`
loop of `_download_images` (`kube_app.py`, lines 781-813).  `ok idx img`
is the success flag returned by `download_an_image` for image `img` during
the attempt with loop index `idx`.  An attempt in which every image
succeeds breaks out of the loop (success).  Otherwise, at the first failed
image the abort flag is consulted: if set, `KubeAppApplyFailure` with the
aborted-by-user reason is raised at once; if not, the loop sleeps
`DOWNLOAD_WAIT_BEFORE_RETRY` seconds (except after the last attempt,
`idx == 0`) and retries.  Exhausting the attempt list runs the `for`-`else`
clause, raising `KubeAppApplyFailure` with the generic
images-download-failed reason. -/
def downloadAttempts (images : List String) (ok : Nat → String → Bool)
    (aborted : Bool) : List Nat → Nat → ImagesOutcome
  | [], slept => .applyFailure .imagesDownloadFailed slept
  | idx :: rest, slept =>
    if images.all (ok idx) then .success slept
    else if aborted then .applyFailure .abortedByUser slept
    else if idx ≠ 0 then
      downloadAttempts images ok aborted rest (slept + DOWNLOAD_WAIT_BEFORE_RETRY)
    else
      downloadAttempts images ok aborted rest slept

/-- The retry loop of `_download_images` with the source's attempt
sequence `reversed(range(MAX_DOWNLOAD_ATTEMPTS))` and no time yet slept. -/
def downloadImages (images : List String) (ok : Nat → String → Bool)
    (aborted : Bool) : ImagesOutcome :=
  downloadAttempts images ok aborted
    ((List.range MAX_DOWNLOAD_ATTEMPTS).reverse) 0

/-! ## The Chart Manifest Reader (`_get_list_of_charts`)

Python dictionaries are embedded as association lists in insertion order:
`d[k] = v` (`dictUpdate`) replaces the entry in place when the key exists
and appends otherwise, `d[k]` (`dictGet`) finds the entry, `del d[k]`
(`dictDel`) removes it, and iteration follows the list order — exactly the
ordering guarantees of Python 3.7+ dicts.  A `KeyError` raised by the
second pass of `_get_list_of_charts` is modelled by `Option`. -/

/-- An insertion-ordered dictionary with string keys. -/
abbrev Dict (α : Type) : Type := List (String × α)

/-- Lookup, `d[k]` (read). -/
def dictGet {α : Type} (d : Dict α) (k : String) : Option α :=
  (d.find? (fun e => e.1 = k)).map Prod.snd

/-- Assignment, `d[k] = v` / `d.update(...)`. -/
def dictUpdate {α : Type} (d : Dict α) (k : String) (v : α) : Dict α :=
  if d.any (fun e => e.1 = k) then
    d.map (fun e => if e.1 = k then (k, v) else e)
  else d ++ [(k, v)]

/-- Deletion, `del d[k]`. -/
def dictDel {α : Type} (d : Dict α) (k : String) : Dict α :=
  d.filter (fun e => e.1 ≠ k)

/-- The keys of a dictionary, in iteration order. -/
def dictKeys {α : Type} (d : Dict α) : List String := d.map Prod.fst

/-- Data indexed for one `armada/ChartGroup` document: its member chart
list (`data.chart_group`) and the `sequenced` flag. -/
structure GroupData where
  chart_group : List String
  sequenced : Bool
deriving DecidableEq

/-- Data indexed for one `armada/Chart` document.  The pre-delete job
labels are carried as the already-joined label strings the source computes
from `upgrade.pre.delete` resources. -/
structure ChartData where
  chart_name : String
  nspace : String
  location : String
  release : String
  labels : List String
deriving DecidableEq

/-- One document of the manifest stream, as classified by the first pass
of `_get_list_of_charts` by its `schema` key: a manifest document carrying
the release prefix and the ordered group list, a chart-group document, or
a chart document. -/
inductive ManifestDoc where
  | manifest (release_pfx : String) (chart_groups : List String)
  | group (name : String) (data : GroupData)
  | chart (name : String) (data : ChartData)
deriving DecidableEq

/-- The `Chart` namedtuple of `kube_app.py` (line 138). -/
structure Chart where
  metadata_name : String
  name : String
  nspace : String
  location : String
  release : String
  labels : List String
  sequenced : Bool
deriving DecidableEq

/-- Construction of one `Chart` namedtuple from the indexed chart data,
as in the `charts.append(Chart(...))` calls of `_get_list_of_charts`. -/
def mkChart (mname : String) (cd : ChartData) (seq : Bool) : Chart :=
  ⟨mname, cd.chart_name, cd.nspace, cd.location, cd.release, cd.labels, seq⟩

/-- Accumulated state of the first pass of `_get_list_of_charts`
(`kube_app.py`, lines 1170-1217): the manifest-level release prefix and
group order, the indexed chart-group documents and the indexed chart
documents. -/
structure ParseState where
  release_pfx : String
  chart_groups : List String
  chart_group : Dict GroupData
  armada_charts : Dict ChartData
deriving DecidableEq

/-- The initial first-pass state (`release_prefix = ""` and empty
collections). -/
def initState : ParseState := ⟨"", [], [], []⟩

/-- One step of the first pass: a manifest document overwrites the release
prefix and group order, group and chart documents are indexed into their
dictionaries. -/
def parseDoc (st : ParseState) : ManifestDoc → ParseState
  | .manifest p gs => { st with release_pfx := p, chart_groups := gs }
  | .group n g => { st with chart_group := dictUpdate st.chart_group n g }
  | .chart n c => { st with armada_charts := dictUpdate st.armada_charts n c }

/-- The whole first pass over the document stream. -/
def parseDocs (docs : List ManifestDoc) : ParseState :=
  docs.foldl parseDoc initState

/-- The inner loop `for chart in chart_group[c_group]['chart_group']` of
the second pass: each member name is looked up in `armada_charts`
(`KeyError`, i.e. `none`, when absent), emitted as a `Chart` with the
group's `sequenced` flag, and deleted from `armada_charts`. -/
def emitCharts (seq : Bool) :
    List String → Dict ChartData → Option (List Chart × Dict ChartData)
  | [], ac => some ([], ac)
  | n :: rest, ac =>
    match dictGet ac n with
    | none => none
    | some cd =>
      match emitCharts seq rest (dictDel ac n) with
      | none => none
      | some (cs, ac') => some (mkChart n cd seq :: cs, ac')

/-- The outer loop `for c_group in chart_groups` of the second pass
(`kube_app.py`, lines 1221-1232): each group of the manifest's declared
order is looked up in `chart_group` (`KeyError` when absent), its member
charts are emitted, and the group is deleted from `chart_group`. -/
def emitGroups :
    List String → Dict GroupData → Dict ChartData →
      Option (List Chart × Dict GroupData × Dict ChartData)
  | [], cg, ac => some ([], cg, ac)
  | g :: rest, cg, ac =>
    match dictGet cg g with
    | none => none
    | some gd =>
      match emitCharts gd.sequenced gd.chart_group ac with
      | none => none
      | some (cs, ac') =>
        match emitGroups rest (dictDel cg g) ac' with
        | none => none
        | some (cs', cg', ac'') => some (cs ++ cs', cg', ac'')

/-- The loop over the groups left in `chart_group` (`kube_app.py`, lines
1236-1247): groups never referenced by the manifest's `chart_groups` list
are walked in insertion order and their member charts emitted with the
group's `sequenced` flag (each member still deleted from
`armada_charts`). -/
def emitOrphanGroups :
    Dict GroupData → Dict ChartData → Option (List Chart × Dict ChartData)
  | [], ac => some ([], ac)
  | e :: rest, ac =>
    match emitCharts e.2.sequenced e.2.chart_group ac with
    | none => none
    | some (cs, ac') =>
      match emitOrphanGroups rest ac' with
      | none => none
      | some (cs', ac'') => some (cs ++ cs', ac'')

/-- The loop over the charts left in `armada_charts` (`kube_app.py`, lines
1249-1258): chart documents never claimed by any group are appended with
`sequenced=False`. -/
def leftoverCharts (ac : Dict ChartData) : List Chart :=
  ac.map (fun e => mkChart e.1 e.2 false)

/-- The release-prefix pass (`kube_app.py`, lines 1260-1265): when the
manifest declared a truthy (non-empty) release prefix, every chart's
release is replaced by `release_prefix + "-" + release`. -/
def applyReleasePfx (p : String) (cs : List Chart) : List Chart :=
  if p ≠ "" then cs.map (fun c => { c with release := p ++ "-" ++ c.release })
  else cs

/-- Embedding of `AppOperator._get_list_of_charts` (`kube_app.py`, lines
1152-1267): first pass indexing, second pass emission in declared group
order, then unreferenced groups, then unclaimed charts, then the
release-prefix rewrite.  `none` is a `KeyError` escaping the second
pass. -/
def getListOfCharts (docs : List ManifestDoc) : Option (List Chart) :=
  let st := parseDocs docs
  match emitGroups st.chart_groups st.chart_group st.armada_charts with
  | none => none
  | some (cs1, cg', ac') =>
    match emitOrphanGroups cg' ac' with
    | none => none
    | some (cs2, ac'') =>
      some (applyReleasePfx st.release_pfx (cs1 ++ cs2 ++ leftoverCharts ac''))

/-- The names of the chart documents of a stream, in order. -/
def chartDocNames : List ManifestDoc → List String
  | [] => []
  | .chart n _ :: rest => n :: chartDocNames rest
  | _ :: rest => chartDocNames rest

/-- The members of a group as indexed by the first pass (empty when the
group was never declared). -/
def groupMembers (cg : Dict GroupData) (g : String) : List String :=
  match dictGet cg g with
  | some gd => gd.chart_group
  | none => []

/-- The chart names claimed by a list of groups, in emission order. -/
def claimedBy (cg : Dict GroupData) : List String → List String
  | [] => []
  | g :: rest => groupMembers cg g ++ claimedBy cg rest

/-- The chart names claimed by the entries of a group dictionary, in
iteration order. -/
def orphanClaimed : Dict GroupData → List String
  | [] => []
  | e :: rest => e.2.chart_group ++ orphanClaimed rest

/-- The chart names emitted through the manifest's declared group order. -/
def referencedCharts (st : ParseState) : List String :=
  claimedBy st.chart_group st.chart_groups

/-- The group documents never referenced by the manifest's declared group
list. -/
def orphanGroups (st : ParseState) : Dict GroupData :=
  st.chart_group.filter (fun e => e.1 ∉ st.chart_groups)

/-- The chart names emitted through the unreferenced groups. -/
def orphanGroupCharts (st : ParseState) : List String :=
  orphanClaimed (orphanGroups st)

/-- All chart names claimed by some group. -/
def claimedCharts (st : ParseState) : List String :=
  referencedCharts st ++ orphanGroupCharts st

/-- The chart names never claimed by any group, in indexing order. -/
def unclaimedCharts (st : ParseState) : List String :=
  (dictKeys st.armada_charts).filter (fun n => n ∉ claimedCharts st)

/-- A concrete manifest stream exercising all three emission phases: one
group referenced by the manifest, one group not referenced, and one chart
claimed by no group. -/
def exampleDocs : List ManifestDoc :=
  [.manifest ("app") ["grpA"],
   .group ("grpA") ⟨["chart1"], true⟩,
   .group ("grpB") ⟨["chart2"], false⟩,
   .chart ("chart1") ⟨"c1", "ns1", "loc1", "rel1", []⟩,
   .chart ("chart2") ⟨"c2", "ns2", "loc2", "rel2", []⟩,
   .chart ("chart3") ⟨"c3", "ns3", "loc3", "rel3", []⟩]

/-! ## Theorems about the download retry loop -/

theorem downloadImages_eq (images : List String) (ok : Nat → String → Bool)
    (aborted : Bool) :
    downloadImages images ok aborted =
      downloadAttempts images ok aborted [2, 1, 0] 0 := rfl

theorem downloadAttempts_failure_of_all (images : List String)
    (ok : Nat → String → Bool) (aborted : Bool) :
    ∀ (idxs : List Nat) (s : Nat),
      (∀ i ∈ idxs, images.all (ok i) = false) →
      ∃ r s', downloadAttempts images ok aborted idxs s =
        ImagesOutcome.applyFailure r s'
  | [], s, _ => ⟨.imagesDownloadFailed, s, rfl⟩
  | i :: rest, s, h => by
    have hi : ¬images.all (ok i) = true := by
      simp [h i (List.mem_cons_self i rest)]
    have hrest : ∀ j ∈ rest, images.all (ok j) = false :=
      fun j hj => h j (List.mem_cons_of_mem i hj)
    rw [downloadAttempts, if_neg hi]
    by_cases ha : aborted = true
    · rw [if_pos ha]
      exact ⟨.abortedByUser, s, rfl⟩
    · rw [if_neg ha]
      by_cases hz : i ≠ 0
      · rw [if_pos hz]
        exact downloadAttempts_failure_of_all images ok aborted rest
          (s + DOWNLOAD_WAIT_BEFORE_RETRY) hrest
      · rw [if_neg hz]
        exact downloadAttempts_failure_of_all images ok aborted rest s hrest

theorem downloadAttempts_success_mem (images : List String)
    (ok : Nat → String → Bool) (aborted : Bool) :
    ∀ (idxs : List Nat) (s s' : Nat),
      downloadAttempts images ok aborted idxs s = ImagesOutcome.success s' →
      ∃ i ∈ idxs, images.all (ok i) = true
  | [], _, _, h => nomatch h
  | i :: rest, s, s', h => by
    by_cases hall : images.all (ok i) = true
    · exact ⟨i, List.mem_cons_self i rest, hall⟩
    · rw [downloadAttempts, if_neg hall] at h
      by_cases ha : aborted = true
      · rw [if_pos ha] at h
        exact nomatch h
      · rw [if_neg ha] at h
        by_cases hz : i ≠ 0
        · rw [if_pos hz] at h
          obtain ⟨j, hj, hja⟩ := downloadAttempts_success_mem images ok
            aborted rest _ s' h
          exact ⟨j, List.mem_cons_of_mem i hj, hja⟩
        · rw [if_neg hz] at h
          obtain ⟨j, hj, hja⟩ := downloadAttempts_success_mem images ok
            aborted rest s s' h
          exact ⟨j, List.mem_cons_of_mem i hj, hja⟩

theorem downloadAttempts_generic_slept (images : List String)
    (ok : Nat → String → Bool) (aborted : Bool) :
    ∀ (idxs : List Nat) (s s' : Nat),
      downloadAttempts images ok aborted idxs s =
        ImagesOutcome.applyFailure FailureReason.imagesDownloadFailed s' →
      s' = s + DOWNLOAD_WAIT_BEFORE_RETRY *
        (idxs.filter (fun i => i ≠ 0)).length
  | [], s, s', h => by
    rw [downloadAttempts] at h
    injection h with _ h'
    simp [h'.symm]
  | i :: rest, s, s', h => by
    by_cases hall : images.all (ok i) = true
    · rw [downloadAttempts, if_pos hall] at h
      exact nomatch h
    · rw [downloadAttempts, if_neg hall] at h
      by_cases ha : aborted = true
      · rw [if_pos ha] at h
        injection h with hr _
        exact nomatch hr
      · rw [if_neg ha] at h
        by_cases hz : i ≠ 0
        · rw [if_pos hz] at h
          have hrec := downloadAttempts_generic_slept images ok aborted
            rest _ s' h
          have hf : (i :: rest).filter (fun j => j ≠ 0) =
              i :: rest.filter (fun j => j ≠ 0) := by
            rw [List.filter_cons]
            simp [hz]
          rw [hf, List.length_cons]
          simp only [DOWNLOAD_WAIT_BEFORE_RETRY] at hrec ⊢
          omega
        · rw [if_neg hz] at h
          have hrec := downloadAttempts_generic_slept images ok aborted
            rest s s' h
          have hf : (i :: rest).filter (fun j => j ≠ 0) =
              rest.filter (fun j => j ≠ 0) := by
            rw [List.filter_cons]
            simp [hz]
          rw [hf]
          exact hrec

/-- C2: if after the maximum number of download attempts
(`MAX_DOWNLOAD_ATTEMPTS = 3`, sleeping `DOWNLOAD_WAIT_BEFORE_RETRY = 30`
seconds between attempts) not all images of the batch succeeded, the
`_download_images` retry loop raises `KubeAppApplyFailure`; it never
reports success unless some attempt downloaded every image of the batch;
and the generic-failure path slept exactly between-attempt waits
(`(MAX_DOWNLOAD_ATTEMPTS - 1) * DOWNLOAD_WAIT_BEFORE_RETRY` seconds). -/
theorem c2_download_retry (images : List String) (ok : Nat → String → Bool)
    (aborted : Bool) :
    ((∀ i, i < MAX_DOWNLOAD_ATTEMPTS → ∃ img ∈ images, ok i img = false) →
      ∃ r s, downloadImages images ok aborted =
        ImagesOutcome.applyFailure r s) ∧
    (∀ s, downloadImages images ok aborted = ImagesOutcome.success s →
      ∃ i, i < MAX_DOWNLOAD_ATTEMPTS ∧ ∀ img ∈ images, ok i img = true) ∧
    (∀ s, downloadImages images ok aborted =
        ImagesOutcome.applyFailure FailureReason.imagesDownloadFailed s →
      s = (MAX_DOWNLOAD_ATTEMPTS - 1) * DOWNLOAD_WAIT_BEFORE_RETRY) := by
  refine ⟨?_, ?_, ?_⟩
  · intro h
    rw [downloadImages_eq]
    refine downloadAttempts_failure_of_all images ok aborted [2, 1, 0] 0 ?_
    intro i hi
    have hlt : i < MAX_DOWNLOAD_ATTEMPTS := by
      have hor : i = 2 ∨ i = 1 ∨ i = 0 := by simpa using hi
      rcases hor with rfl | rfl | rfl <;> norm_num [MAX_DOWNLOAD_ATTEMPTS]
    obtain ⟨img, himg, hfail⟩ := h i hlt
    exact List.all_eq_false.mpr ⟨img, himg, by simp [hfail]⟩
  · intro s hs
    rw [downloadImages_eq] at hs
    obtain ⟨i, hi, hall⟩ :=
      downloadAttempts_success_mem images ok aborted [2, 1, 0] 0 s hs
    have hlt : i < MAX_DOWNLOAD_ATTEMPTS := by
      have hor : i = 2 ∨ i = 1 ∨ i = 0 := by simpa using hi
      rcases hor with rfl | rfl | rfl <;> norm_num [MAX_DOWNLOAD_ATTEMPTS]
    exact ⟨i, hlt, fun img himg => List.all_eq_true.mp hall img himg⟩
  · intro s hs
    rw [downloadImages_eq] at hs
    have := downloadAttempts_generic_slept images ok aborted [2, 1, 0] 0 s hs
    simpa [MAX_DOWNLOAD_ATTEMPTS, DOWNLOAD_WAIT_BEFORE_RETRY] using this

/-- Witness for C2: a one-image batch whose download always fails makes
the pipeline raise `KubeAppApplyFailure`. -/
theorem c2_download_retry_witness :
    ∃ r s, downloadImages ["img1"] (fun _ _ => false) false =
      ImagesOutcome.applyFailure r s := by
  refine (c2_download_retry ["img1"] (fun _ _ => false) false).1 ?_
  intro i _
  exact ⟨"img1", by simp, rfl⟩

/-- C8: when cancellation has been requested (the abort flag is set), the
retry loop of `_download_images` never sleeps toward another attempt: it
either succeeds with zero seconds slept (all images of the first attempt
succeeded) or raises `KubeAppApplyFailure` at once with the
aborted-by-user reason, which is distinct from the generic
images-download-failed reason. -/
theorem c8_abort_before_sleep (images : List String)
    (ok : Nat → String → Bool) :
    (downloadImages images ok true = ImagesOutcome.success 0 ∨
      downloadImages images ok true =
        ImagesOutcome.applyFailure FailureReason.abortedByUser 0) ∧
    FailureReason.abortedByUser ≠ FailureReason.imagesDownloadFailed := by
  refine ⟨?_, by decide⟩
  rw [downloadImages_eq]
  by_cases hall : images.all (ok 2) = true
  · left
    simp [downloadAttempts, hall]
  · right
    simp [downloadAttempts, hall]

/-! ## Theorems about status updates, recovery, abort, remove -/

/-- C10: `_update_app_status` with only a new progress string leaves the
status unchanged, and with only a new status (progress `None` or empty)
leaves the progress string unchanged. -/
theorem c10_update_status_frame (rec : KubeAppDbRecord) (s p : String) :
    (updateAppStatus rec none (some p)).status = rec.status ∧
    (updateAppStatus rec (some s) none).progress = rec.progress ∧
    (updateAppStatus rec (some s) (some (""))).progress = rec.progress := by
  refine ⟨rfl, rfl, ?_⟩
  simp [updateAppStatus, update_status]

/-- C3: at process startup, `_clear_stuck_applications` rewrites exactly
the five in-progress statuses — upload-in-progress to upload-failure;
apply-, update- or recover-in-progress to upload-success for
platform-managed applications and apply-failure otherwise;
remove-in-progress to remove-failure — leaves every other row unchanged,
and clears the Armada locks. -/
theorem c3_clear_stuck (pm : String → Bool) (apps : List DbApp) :
    (clearStuckApplications pm apps).armadaLocksCleared = true ∧
    (clearStuckApplications pm apps).apps = apps.map (fun app =>
      { app with status :=
          match app.status with
          | .uploadInProgress => .uploadFailure
          | .applyInProgress =>
              if pm app.name then .uploadSuccess else .applyFailure
          | .updateInProgress =>
              if pm app.name then .uploadSuccess else .applyFailure
          | .recoverInProgress =>
              if pm app.name then .uploadSuccess else .applyFailure
          | .removeInProgress => .removeFailure
          | s => s }) := by
  refine ⟨rfl, ?_⟩
  show apps.map (clearStuckApp pm) = _
  refine List.map_congr_left ?_
  intro app _
  rcases app with ⟨name, status⟩
  cases hpm : pm name <;> cases status <;>
    simp [clearStuckApp, inProgressStatuses, abortOperation, hpm]

/-- C7 counterexample: upload-in-progress and recover-in-progress are
among the five in-progress statuses, yet `perform_app_abort` ignores them
(no abort flag set, Armada not stopped, locks not cleared), refuting the
claimed "if and only if the record shows an -in-progress state". -/
theorem c7_counterexample :
    AppStatus.uploadInProgress ∈ inProgressStatuses ∧
    performAppAbort .uploadInProgress = ⟨false, false, false⟩ ∧
    AppStatus.recoverInProgress ∈ inProgressStatuses ∧
    performAppAbort .recoverInProgress = ⟨false, false, false⟩ := by decide

/-- C7 (amended): `perform_app_abort` sets the Abort Registry flag, stops
the Armada container and clears the locks exactly when the persisted
status is apply-in-progress, update-in-progress or remove-in-progress;
for every other status (upload- and recover-in-progress included) the
request is ignored and nothing is changed. -/
theorem c7_abort_amended (s : AppStatus) :
    (performAppAbort s = ⟨true, true, true⟩ ↔
      (s = .applyInProgress ∨ s = .updateInProgress ∨
        s = .removeInProgress)) ∧
    (performAppAbort s = ⟨false, false, false⟩ ↔
      ¬(s = .applyInProgress ∨ s = .updateInProgress ∨
        s = .removeInProgress)) := by
  cases s <;> decide

/-- C5 counterexample: the Armada delete request succeeded, yet
`perform_app_remove` ends in remove-failure (the system-app
cluster-resource cleanup raised after the successful delete), refuting
"when the delete request succeeds ... the status advances to
upload-success". -/
theorem c5_counterexample :
    c5FailingInput.armadaDeleteOk = true ∧
    (performAppRemove c5FailingInput).finalStatus =
      some AppStatus.removeFailure ∧
    (performAppRemove c5FailingInput).finalStatus ≠
      some AppStatus.uploadSuccess := by decide

theorem zeroReleases_eq (rs : List ReleaseRecord) :
    rs.map (fun r => if r.version = 0 then r else { r with version := 0 }) =
      rs.map (fun r => { r with version := 0 }) := by
  refine List.map_congr_left ?_
  intro r _
  rcases r with ⟨rel, ns, v⟩
  by_cases h : v = 0 <;> simp [h]

/-- C5 (amended): when `perform_app_remove` raises no exception before the
delete request, a successful Armada delete whose platform-resource cleanup
(relevant only for system apps) also succeeds zeroes every Release Version
Record, destroys the inactive record if one exists, and ends in
upload-success; a failed Armada delete ends in remove-failure with an
alarm and leaves the release records untouched. -/
theorem c5_remove_amended (inp : RemoveInput)
    (hpre : inp.preStepsOk = true) :
    (inp.armadaDeleteOk = true →
      (inp.systemApp = true → inp.cleanupResourcesOk = true) →
      (performAppRemove inp).releases =
          inp.releases.map (fun r => { r with version := 0 }) ∧
      (performAppRemove inp).inactiveDestroyed = inp.inactiveExists ∧
      (performAppRemove inp).finalStatus = some AppStatus.uploadSuccess ∧
      (performAppRemove inp).alarmCleared = true ∧
      (performAppRemove inp).rc = some true) ∧
    (inp.armadaDeleteOk = false →
      (performAppRemove inp).releases = inp.releases ∧
      (performAppRemove inp).inactiveDestroyed = false ∧
      (performAppRemove inp).finalStatus = some AppStatus.removeFailure ∧
      (performAppRemove inp).alarmRaised = true ∧
      (performAppRemove inp).rc = some false) := by
  rcases inp with ⟨sys, pre, del, clean, rels, inact⟩
  simp only at hpre
  subst hpre
  constructor
  · intro hdel hclean
    simp only at hdel hclean
    subst hdel
    have hcond : ¬(sys = true ∧ clean = false) := by
      rintro ⟨hs, hc⟩
      rw [hclean hs] at hc
      exact Bool.noConfusion hc
    simp [performAppRemove, hcond, zeroReleases_eq]
  · intro hdel
    simp only at hdel
    subst hdel
    simp [performAppRemove]

/-- Witness for C5's amended theorem, at a non-system application with a
successful delete and at an application whose delete fails. -/
theorem c5_remove_witness :
    (performAppRemove ⟨false, true, true, true, [⟨"r1", "n1", 2⟩], true⟩).finalStatus
      = some AppStatus.uploadSuccess ∧
    (performAppRemove ⟨false, true, false, true, [⟨"r1", "n1", 2⟩], false⟩).finalStatus
      = some AppStatus.removeFailure := by
  constructor
  · exact ((c5_remove_amended
      ⟨false, true, true, true, [⟨"r1", "n1", 2⟩], true⟩ rfl).1 rfl
      (fun h => Bool.noConfusion h)).2.2.1
  · exact ((c5_remove_amended
      ⟨false, true, false, true, [⟨"r1", "n1", 2⟩], false⟩ rfl).2 rfl).2.2.1

/-- C6 counterexample: when the cleanup of the new version's files raises,
`_perform_app_recover` ends with apply-success (not apply-failure, though
recovery's own steps failed) and the new version's database record was
never destroyed, refuting "in both outcomes the new version's files and
database record are destroyed". -/
theorem c6_counterexample :
    (performAppRecover c6FailingInput).newRecordDestroyed = false ∧
    (performAppRecover c6FailingInput).oldStatus = AppStatus.applySuccess ∧
    c6FailingInput.cleanupNewOk = false := by decide

/-- C6 (amended): `_perform_app_recover` ends in apply-failure exactly
when every step up to the Armada apply request succeeded, the request was
required, and the request itself failed; every other run (failures of the
cleanup or recovery steps included, which are recorded with a
cleanup-failed progress note) ends in apply-success; and the new version's
files and database record are destroyed exactly when the file cleanup, the
patch-dependency report and the record destroy steps all completed. -/
theorem c6_recover_amended (inp : RecoverInput) :
    ((performAppRecover inp).oldStatus = AppStatus.applyFailure ↔
      (inp.cleanupNewOk = true ∧ inp.patchReportOk = true ∧
       inp.destroyNewOk = true ∧ inp.uploadChartsOk = true ∧
       inp.armadaRequired = true ∧ inp.prepareChartsOk = true ∧
       inp.armadaApplyOk = false)) ∧
    ((performAppRecover inp).oldStatus = AppStatus.applySuccess ∨
      (performAppRecover inp).oldStatus = AppStatus.applyFailure) ∧
    ((performAppRecover inp).newRecordDestroyed = true ↔
      (inp.cleanupNewOk = true ∧ inp.patchReportOk = true ∧
       inp.destroyNewOk = true)) := by
  rcases inp with ⟨a, b, c, d, e, f, g, h⟩
  cases a <;> cases b <;> cases c <;> cases d <;> cases e <;> cases f <;>
    cases g <;> cases h <;> decide

/-- C9: evaluating `perform_app_apply` (not called from update, so the
Abort Registry entry was registered at the start) on the all-success path:
the method returns `True` while the registry still holds the entry — the
success `return` at line 1961 skips the deregistration at lines 1972-1975.
The failure and exception paths below it do deregister. -/
theorem c9_apply_leak :
    performAppApply false true true true true = ⟨some true, true⟩ ∧
    (performAppApply false false true true true).abortEntryPresent = false ∧
    (performAppApply false true true true false).abortEntryPresent = false ∧
    (performAppApply false true false true true).abortEntryPresent = false := by
  decide

/-- `perform_app_update` deregisters the Abort Registry entry on every
path: its whole body runs inside a `try` with a `finally` that
deregisters. -/
theorem performAppUpdate_deregisters (a b c d : Bool) :
    (performAppUpdate a b c d).abortEntryPresent = false := by
  cases a <;> cases b <;> cases c <;> cases d <;> rfl

/-! ## Dictionary lemmas -/

theorem dictGet_cons_self {α : Type} (k : String) (v : α) (d : Dict α) :
    dictGet ((k, v) :: d) k = some v := by
  unfold dictGet
  rw [List.find?_cons_of_pos]
  · rfl
  · simp

theorem dictGet_cons_ne {α : Type} {k k1 : String} (v : α) (d : Dict α)
    (h : k1 ≠ k) : dictGet ((k1, v) :: d) k = dictGet d k := by
  unfold dictGet
  rw [List.find?_cons_of_neg]
  simp [h]

theorem dictGet_filter {α : Type} (p : String × α → Bool) (k : String) :
    ∀ (d : Dict α), (∀ v, p (k, v) = true) →
      dictGet (d.filter p) k = dictGet d k
  | [], _ => rfl
  | (k1, v1) :: rest, h => by
    by_cases hk : k1 = k
    · subst hk
      rw [List.filter_cons, if_pos (h v1), dictGet_cons_self,
        dictGet_cons_self]
    · rw [List.filter_cons]
      by_cases hp : p (k1, v1) = true
      · rw [if_pos hp, dictGet_cons_ne v1 _ hk, dictGet_cons_ne v1 _ hk]
        exact dictGet_filter p k rest h
      · rw [if_neg hp, dictGet_cons_ne v1 _ hk]
        exact dictGet_filter p k rest h

theorem dictGet_dictDel_ne {α : Type} (d : Dict α) (k k' : String)
    (h : k' ≠ k) : dictGet (dictDel d k) k' = dictGet d k' := by
  unfold dictDel
  exact dictGet_filter _ k' d (fun v => by simp [h])

theorem dictGet_isSome_iff {α : Type} (k : String) :
    ∀ (d : Dict α), (dictGet d k).isSome ↔ k ∈ dictKeys d
  | [] => by simp [dictGet, dictKeys]
  | (k1, v1) :: rest => by
    by_cases hk : k1 = k
    · subst hk
      simp [dictGet_cons_self, dictKeys]
    · rw [dictGet_cons_ne v1 rest hk]
      constructor
      · intro hs
        exact List.mem_cons_of_mem _ ((dictGet_isSome_iff k rest).mp hs)
      · intro hm
        rcases List.mem_cons.mp hm with h1 | h2
        · exact absurd h1.symm hk
        · exact (dictGet_isSome_iff k rest).mpr h2

theorem dictGet_mem {α : Type} (k : String) (v : α) :
    ∀ (d : Dict α), dictGet d k = some v → (k, v) ∈ d
  | [], h => nomatch h
  | (k1, v1) :: rest, h => by
    by_cases hk : k1 = k
    · subst hk
      rw [dictGet_cons_self] at h
      injection h with h'
      subst h'
      exact List.mem_cons_self _ _
    · rw [dictGet_cons_ne v1 rest hk] at h
      exact List.mem_cons_of_mem _ (dictGet_mem k v rest h)

theorem dictGet_of_mem_nodup {α : Type} (k : String) (v : α) :
    ∀ (d : Dict α), (dictKeys d).Nodup → (k, v) ∈ d → dictGet d k = some v
  | [], _, h => absurd h (List.not_mem_nil _)
  | (k1, v1) :: rest, hnd, h => by
    simp only [dictKeys, List.map_cons] at hnd
    rcases List.mem_cons.mp h with he | hm
    · injection he with h1 h2
      subst h1
      subst h2
      exact dictGet_cons_self _ _ _
    · have hk : k1 ≠ k := by
        rintro rfl
        exact (List.nodup_cons.mp hnd).1 (List.mem_map_of_mem Prod.fst hm)
      rw [dictGet_cons_ne v1 rest hk]
      exact dictGet_of_mem_nodup k v rest (List.nodup_cons.mp hnd).2 hm

theorem dictKeys_append {α : Type} (d1 d2 : Dict α) :
    dictKeys (d1 ++ d2) = dictKeys d1 ++ dictKeys d2 :=
  List.map_append _ _ _

theorem dictKeys_filter {α : Type} (p : String → Bool) :
    ∀ (d : Dict α),
      dictKeys (d.filter (fun e => p e.1)) = (dictKeys d).filter p
  | [] => rfl
  | (k1, v1) :: rest => by
    by_cases hp : p k1 = true
    · rw [List.filter_cons, if_pos hp]
      show k1 :: dictKeys (rest.filter (fun e => p e.1)) = _
      rw [dictKeys_filter p rest]
      show _ = (k1 :: dictKeys rest).filter p
      rw [List.filter_cons, if_pos hp]
    · rw [List.filter_cons, if_neg hp]
      rw [dictKeys_filter p rest]
      show _ = (k1 :: dictKeys rest).filter p
      rw [List.filter_cons, if_neg hp]

theorem dictUpdate_of_not_mem {α : Type} (d : Dict α) (k : String) (v : α)
    (h : k ∉ dictKeys d) : dictUpdate d k v = d ++ [(k, v)] := by
  have hA : ¬(d.any (fun e => e.1 = k) = true) := by
    simp only [List.any_eq_true, decide_eq_true_eq, not_exists, not_and]
    intro e he hek
    exact h (hek ▸ List.mem_map_of_mem Prod.fst he)
  unfold dictUpdate
  rw [if_neg hA]

theorem dictKeys_dictUpdate_of_mem {α : Type} (d : Dict α) (k : String)
    (v : α) (h : k ∈ dictKeys d) :
    dictKeys (dictUpdate d k v) = dictKeys d := by
  have hA : d.any (fun e => e.1 = k) = true := by
    simp only [List.any_eq_true, decide_eq_true_eq]
    obtain ⟨e, he, hek⟩ := List.mem_map.mp h
    exact ⟨e, he, hek⟩
  unfold dictUpdate
  rw [if_pos hA]
  unfold dictKeys
  rw [List.map_map]
  refine List.map_congr_left ?_
  intro e he
  by_cases hek : e.1 = k
  · simp [Function.comp, hek]
  · simp [Function.comp, hek]

theorem dictGet_append {α : Type} (k : String) :
    ∀ (d1 d2 : Dict α),
      dictGet (d1 ++ d2) k =
        match dictGet d1 k with
        | some v => some v
        | none => dictGet d2 k
  | [], _ => rfl
  | (k1, v1) :: rest, d2 => by
    by_cases hk : k1 = k
    · subst hk
      rw [List.cons_append, dictGet_cons_self, dictGet_cons_self]
    · rw [List.cons_append, dictGet_cons_ne v1 _ hk,
        dictGet_cons_ne v1 _ hk]
      exact dictGet_append k rest d2

theorem dictGet_replaceMap {α : Type} (k k' : String) (v : α) :
    ∀ (d : Dict α) (w : α),
      dictGet (d.map (fun e => if e.1 = k then (k, v) else e)) k' = some w →
      (k' = k ∧ w = v) ∨ dictGet d k' = some w
  | [], _, h => nomatch h
  | (k1, v1) :: rest, w, h => by
    simp only [List.map_cons] at h
    by_cases h1 : k1 = k
    · rw [if_pos h1] at h
      by_cases hk : k = k'
      · subst hk
        rw [dictGet_cons_self] at h
        injection h with h'
        exact Or.inl ⟨rfl, h'.symm⟩
      · rw [dictGet_cons_ne v _ hk] at h
        rcases dictGet_replaceMap k k' v rest w h with hl | hr
        · exact Or.inl hl
        · refine Or.inr ?_
          rw [dictGet_cons_ne v1 rest (by rw [h1]; exact hk)]
          exact hr
    · rw [if_neg h1] at h
      by_cases hk1 : k1 = k'
      · subst hk1
        rw [dictGet_cons_self] at h
        exact Or.inr ((dictGet_cons_self k1 v1 rest).trans h)
      · rw [dictGet_cons_ne v1 _ hk1] at h
        rcases dictGet_replaceMap k k' v rest w h with hl | hr
        · exact Or.inl hl
        · refine Or.inr ?_
          rw [dictGet_cons_ne v1 rest hk1]
          exact hr

theorem dictGet_dictUpdate_cases {α : Type} (d : Dict α) (k k' : String)
    (v w : α)
    (h : dictGet (dictUpdate d k v) k' = some w) :
    (k' = k ∧ w = v) ∨ dictGet d k' = some w := by
  unfold dictUpdate at h
  by_cases hA : d.any (fun e => e.1 = k) = true
  · rw [if_pos hA] at h
    exact dictGet_replaceMap k k' v d w h
  · rw [if_neg hA, dictGet_append] at h
    cases hd : dictGet d k' with
    | some v' =>
      rw [hd] at h
      exact Or.inr h
    | none =>
      rw [hd] at h
      by_cases hk : k = k'
      · subst hk
        rw [dictGet_cons_self] at h
        injection h with h'
        exact Or.inl ⟨rfl, h'.symm⟩
      · rw [dictGet_cons_ne v _ hk] at h
        exact nomatch h

/-! ## First-pass lemmas -/

theorem parseFold_armada_keys :
    ∀ (docs : List ManifestDoc) (st : ParseState),
      (dictKeys st.armada_charts ++ chartDocNames docs).Nodup →
      dictKeys ((docs.foldl parseDoc st).armada_charts) =
        dictKeys st.armada_charts ++ chartDocNames docs
  | [], st, _ => by simp [chartDocNames]
  | .manifest p gs :: rest, st, h => by
    rw [List.foldl_cons]
    exact parseFold_armada_keys rest _ h
  | .group m g :: rest, st, h => by
    rw [List.foldl_cons]
    exact parseFold_armada_keys rest _ h
  | .chart n cd :: rest, st, h => by
    rw [List.foldl_cons]
    have hne : n ∉ dictKeys st.armada_charts := by
      intro hmem
      exact (List.disjoint_of_nodup_append h) hmem (List.mem_cons_self _ _)
    have hupd : (parseDoc st (.chart n cd)).armada_charts =
        st.armada_charts ++ [(n, cd)] := by
      show dictUpdate st.armada_charts n cd = _
      exact dictUpdate_of_not_mem _ _ _ hne
    have hhyp : (dictKeys (parseDoc st (.chart n cd)).armada_charts ++
        chartDocNames rest).Nodup := by
      rw [hupd, dictKeys_append, List.append_assoc]
      exact h
    have hrec := parseFold_armada_keys rest _ hhyp
    rw [hrec, hupd, dictKeys_append, List.append_assoc]
    rfl

theorem parseFold_armada_mem :
    ∀ (docs : List ManifestDoc) (st : ParseState) (n : String)
      (cd : ChartData),
      dictGet ((docs.foldl parseDoc st).armada_charts) n = some cd →
      dictGet st.armada_charts n = some cd ∨ ManifestDoc.chart n cd ∈ docs
  | [], _, _, _, h => Or.inl h
  | .manifest p gs :: rest, st, n, cd, h => by
    rw [List.foldl_cons] at h
    rcases parseFold_armada_mem rest _ n cd h with h1 | h2
    · exact Or.inl h1
    · exact Or.inr (List.mem_cons_of_mem _ h2)
  | .group m g :: rest, st, n, cd, h => by
    rw [List.foldl_cons] at h
    rcases parseFold_armada_mem rest _ n cd h with h1 | h2
    · exact Or.inl h1
    · exact Or.inr (List.mem_cons_of_mem _ h2)
  | .chart m cdm :: rest, st, n, cd, h => by
    rw [List.foldl_cons] at h
    rcases parseFold_armada_mem rest _ n cd h with h1 | h2
    · rcases dictGet_dictUpdate_cases _ _ _ _ _ h1 with ⟨rfl, rfl⟩ | h3
      · exact Or.inr (List.mem_cons_self _ _)
      · exact Or.inl h3
    · exact Or.inr (List.mem_cons_of_mem _ h2)

/-- The indexed chart names of a stream whose chart documents carry
pairwise distinct names are exactly those names, in order. -/
theorem parseDocs_armada_keys (docs : List ManifestDoc)
    (h : (chartDocNames docs).Nodup) :
    dictKeys (parseDocs docs).armada_charts = chartDocNames docs := by
  have hh : (dictKeys initState.armada_charts ++ chartDocNames docs).Nodup := by
    simpa [initState, dictKeys] using h
  have := parseFold_armada_keys docs initState hh
  simpa [initState, dictKeys] using this

/-- Every entry of the first-pass chart index comes from a chart document
of the stream. -/
theorem parseDocs_armada_mem (docs : List ManifestDoc) (n : String)
    (cd : ChartData)
    (h : dictGet (parseDocs docs).armada_charts n = some cd) :
    ManifestDoc.chart n cd ∈ docs := by
  rcases parseFold_armada_mem docs initState n cd h with h1 | h2
  · exact absurd h1 (by simp [initState, dictGet])
  · exact h2

theorem claimedBy_dictDel (cg : Dict GroupData) (g : String) :
    ∀ (gs : List String), g ∉ gs →
      claimedBy (dictDel cg g) gs = claimedBy cg gs
  | [], _ => rfl
  | g' :: rest, h => by
    have hg' : g' ≠ g := by
      rintro rfl
      exact h (List.mem_cons_self g' rest)
    simp only [claimedBy]
    rw [claimedBy_dictDel cg g rest (fun hm => h (List.mem_cons_of_mem _ hm))]
    congr 1
    unfold groupMembers
    rw [dictGet_dictDel_ne cg g g' hg']

/-! ## Second-pass emission lemmas -/

theorem emitCharts_spec (seq : Bool) :
    ∀ (names : List String) (ac : Dict ChartData),
      names.Nodup → (∀ n ∈ names, (dictGet ac n).isSome) →
      ∃ cs ac',
        emitCharts seq names ac = some (cs, ac') ∧
        cs.map Chart.metadata_name = names ∧
        (∀ c ∈ cs, c.sequenced = seq ∧
          ∃ cd, dictGet ac c.metadata_name = some cd ∧
            c = mkChart c.metadata_name cd seq) ∧
        ac' = ac.filter (fun e => e.1 ∉ names)
  | [], ac, _, _ => ⟨[], ac, rfl, rfl, by simp, by simp⟩
  | n :: rest, ac, hnd, hmem => by
    obtain ⟨cd, hcd⟩ := Option.isSome_iff_exists.mp
      (hmem n (List.mem_cons_self n rest))
    have hnotin : n ∉ rest := (List.nodup_cons.mp hnd).1
    have hmemr : ∀ m ∈ rest, (dictGet (dictDel ac n) m).isSome := by
      intro m hm
      rw [dictGet_dictDel_ne ac n m (by rintro rfl; exact hnotin hm)]
      exact hmem m (List.mem_cons_of_mem n hm)
    obtain ⟨cs, ac', hemit, hmap, hdata, hfil⟩ :=
      emitCharts_spec seq rest (dictDel ac n) (List.nodup_cons.mp hnd).2 hmemr
    refine ⟨mkChart n cd seq :: cs, ac', ?_, ?_, ?_, ?_⟩
    · simp only [emitCharts, hcd, hemit]
    · simp [hmap, mkChart]
    · intro c hc
      rcases List.mem_cons.mp hc with rfl | hc'
      · exact ⟨rfl, cd, hcd, rfl⟩
      · obtain ⟨hseq, cd', hget, hch⟩ := hdata c hc'
        have hcm : c.metadata_name ∈ rest := by
          rw [← hmap]
          exact List.mem_map_of_mem _ hc'
        refine ⟨hseq, cd', ?_, hch⟩
        rw [← dictGet_dictDel_ne ac n c.metadata_name
          (by rintro rfl; exact hnotin hcm)]
        exact hget
    · rw [hfil]
      unfold dictDel
      rw [List.filter_filter]
      refine List.filter_congr ?_
      intro e he
      by_cases h1 : e.1 = n <;> by_cases h2 : e.1 ∈ rest <;> simp [h1, h2]

theorem emitGroups_spec :
    ∀ (gs : List String) (cg : Dict GroupData) (ac : Dict ChartData),
      gs.Nodup →
      (∀ g ∈ gs, (dictGet cg g).isSome) →
      (claimedBy cg gs).Nodup →
      (∀ n ∈ claimedBy cg gs, (dictGet ac n).isSome) →
      ∃ cs cg' ac',
        emitGroups gs cg ac = some (cs, cg', ac') ∧
        cs.map Chart.metadata_name = claimedBy cg gs ∧
        (∀ c ∈ cs, ∃ cd seq, dictGet ac c.metadata_name = some cd ∧
          c = mkChart c.metadata_name cd seq) ∧
        cg' = cg.filter (fun e => e.1 ∉ gs) ∧
        ac' = ac.filter (fun e => e.1 ∉ claimedBy cg gs)
  | [], cg, ac, _, _, _, _ =>
    ⟨[], cg, ac, rfl, rfl, by simp, by simp, by simp [claimedBy]⟩
  | g :: gs', cg, ac, hgnd, hg, hcnd, hcm => by
    obtain ⟨gd, hgd⟩ := Option.isSome_iff_exists.mp
      (hg g (List.mem_cons_self g gs'))
    have hgnotin : g ∉ gs' := (List.nodup_cons.mp hgnd).1
    have hclaim : claimedBy cg (g :: gs') =
        gd.chart_group ++ claimedBy cg gs' := by
      simp only [claimedBy]
      congr 1
      unfold groupMembers
      rw [hgd]
    rw [hclaim] at hcnd hcm
    obtain ⟨cs₁, ac₁, he1, hm1, hd1, hf1⟩ :=
      emitCharts_spec gd.sequenced gd.chart_group ac
        (List.nodup_append.mp hcnd).1
        (fun n hn => hcm n (List.mem_append_left _ hn))
    have hdisj := List.disjoint_of_nodup_append hcnd
    have hget1 : ∀ n ∈ claimedBy cg gs', dictGet ac₁ n = dictGet ac n := by
      intro n hn
      rw [hf1]
      refine dictGet_filter _ n ac (fun v => ?_)
      simp only [decide_eq_true_eq]
      exact fun hmem => hdisj hmem hn
    have hg' : ∀ g' ∈ gs', (dictGet (dictDel cg g) g').isSome := by
      intro g' hgm
      rw [dictGet_dictDel_ne cg g g' (by rintro rfl; exact hgnotin hgm)]
      exact hg g' (List.mem_cons_of_mem g hgm)
    have hdel := claimedBy_dictDel cg g gs' hgnotin
    have hcnd' : (claimedBy (dictDel cg g) gs').Nodup := by
      rw [hdel]
      exact (List.nodup_append.mp hcnd).2.1
    have hcm' : ∀ n ∈ claimedBy (dictDel cg g) gs',
        (dictGet ac₁ n).isSome := by
      intro n hn
      rw [hdel] at hn
      rw [hget1 n hn]
      exact hcm n (List.mem_append_right _ hn)
    obtain ⟨cs₂, cg₂, ac₂, he2, hm2, hd2, hcg2, hf2⟩ :=
      emitGroups_spec gs' (dictDel cg g) ac₁
        (List.nodup_cons.mp hgnd).2 hg' hcnd' hcm'
    refine ⟨cs₁ ++ cs₂, cg₂, ac₂, ?_, ?_, ?_, ?_, ?_⟩
    · simp only [emitGroups, hgd, he1, he2]
    · rw [hclaim, List.map_append, hm1, hm2, hdel]
    · intro c hc
      rcases List.mem_append.mp hc with hc1 | hc2
      · obtain ⟨hseq, cd, hget, hch⟩ := hd1 c hc1
        exact ⟨cd, gd.sequenced, hget, hch⟩
      · obtain ⟨cd, seq, hget, hch⟩ := hd2 c hc2
        have hcmem : c.metadata_name ∈ claimedBy cg gs' := by
          rw [← hdel, ← hm2]
          exact List.mem_map_of_mem _ hc2
        refine ⟨cd, seq, ?_, hch⟩
        rw [← hget1 c.metadata_name hcmem]
        exact hget
    · rw [hcg2]
      unfold dictDel
      rw [List.filter_filter]
      refine List.filter_congr ?_
      intro e he
      by_cases h1 : e.1 = g <;> by_cases h2 : e.1 ∈ gs' <;> simp [h1, h2]
    · rw [hf2, hdel, hf1, List.filter_filter, hclaim]
      refine List.filter_congr ?_
      intro e he
      by_cases h1 : e.1 ∈ gd.chart_group <;>
        by_cases h2 : e.1 ∈ claimedBy cg gs' <;> simp [h1, h2]

theorem emitOrphanGroups_spec :
    ∀ (cg : Dict GroupData) (ac : Dict ChartData),
      (orphanClaimed cg).Nodup →
      (∀ n ∈ orphanClaimed cg, (dictGet ac n).isSome) →
      ∃ cs ac',
        emitOrphanGroups cg ac = some (cs, ac') ∧
        cs.map Chart.metadata_name = orphanClaimed cg ∧
        (∀ c ∈ cs, ∃ cd seq, dictGet ac c.metadata_name = some cd ∧
          c = mkChart c.metadata_name cd seq) ∧
        ac' = ac.filter (fun e => e.1 ∉ orphanClaimed cg)
  | [], ac, _, _ => ⟨[], ac, rfl, rfl, by simp, by simp [orphanClaimed]⟩
  | e :: rest, ac, hnd, hm => by
    have hoc : orphanClaimed (e :: rest) =
        e.2.chart_group ++ orphanClaimed rest := rfl
    rw [hoc] at hnd hm
    obtain ⟨cs₁, ac₁, he1, hm1, hd1, hf1⟩ :=
      emitCharts_spec e.2.sequenced e.2.chart_group ac
        (List.nodup_append.mp hnd).1
        (fun n hn => hm n (List.mem_append_left _ hn))
    have hdisj := List.disjoint_of_nodup_append hnd
    have hget1 : ∀ n ∈ orphanClaimed rest, dictGet ac₁ n = dictGet ac n := by
      intro n hn
      rw [hf1]
      refine dictGet_filter _ n ac (fun v => ?_)
      simp only [decide_eq_true_eq]
      exact fun hmem => hdisj hmem hn
    obtain ⟨cs₂, ac₂, he2, hm2, hd2, hf2⟩ :=
      emitOrphanGroups_spec rest ac₁ (List.nodup_append.mp hnd).2.1
        (fun n hn => by
          rw [hget1 n hn]
          exact hm n (List.mem_append_right _ hn))
    refine ⟨cs₁ ++ cs₂, ac₂, ?_, ?_, ?_, ?_⟩
    · simp only [emitOrphanGroups, he1, he2]
    · rw [hoc, List.map_append, hm1, hm2]
    · intro c hc
      rcases List.mem_append.mp hc with hc1 | hc2
      · obtain ⟨hseq, cd, hget, hch⟩ := hd1 c hc1
        exact ⟨cd, e.2.sequenced, hget, hch⟩
      · obtain ⟨cd, seq, hget, hch⟩ := hd2 c hc2
        have hcmem : c.metadata_name ∈ orphanClaimed rest := by
          rw [← hm2]
          exact List.mem_map_of_mem _ hc2
        refine ⟨cd, seq, ?_, hch⟩
        rw [← hget1 c.metadata_name hcmem]
        exact hget
    · rw [hf2, hf1, List.filter_filter, hoc]
      refine List.filter_congr ?_
      intro x hx
      by_cases h1 : x.1 ∈ e.2.chart_group <;>
        by_cases h2 : x.1 ∈ orphanClaimed rest <;> simp [h1, h2]

/-! ## The assembled reader specification -/

theorem leftoverCharts_map_meta (ac : Dict ChartData) :
    (leftoverCharts ac).map Chart.metadata_name = dictKeys ac := by
  unfold leftoverCharts dictKeys
  rw [List.map_map]
  exact List.map_congr_left (fun e _ => rfl)

/-- Full characterisation of `_get_list_of_charts` on a well-formed
stream: the result is the prefix-rewrite of three segments — the charts of
the manifest's declared group order, the charts of the unreferenced
groups, and the never-claimed charts — each segment's names computed from
the first-pass index, and every chart built by `mkChart` from its indexed
data. -/
theorem getListOfCharts_spec (docs : List ManifestDoc)
    (hg1 : (parseDocs docs).chart_groups.Nodup)
    (hg2 : ∀ g ∈ (parseDocs docs).chart_groups,
      (dictGet (parseDocs docs).chart_group g).isSome)
    (hc1 : (claimedCharts (parseDocs docs)).Nodup)
    (hc2 : ∀ n ∈ claimedCharts (parseDocs docs),
      (dictGet (parseDocs docs).armada_charts n).isSome) :
    ∃ cs1 cs2 cs3,
      getListOfCharts docs =
        some (applyReleasePfx (parseDocs docs).release_pfx
          (cs1 ++ cs2 ++ cs3)) ∧
      cs1.map Chart.metadata_name = referencedCharts (parseDocs docs) ∧
      cs2.map Chart.metadata_name = orphanGroupCharts (parseDocs docs) ∧
      cs3.map Chart.metadata_name = unclaimedCharts (parseDocs docs) ∧
      (∀ c ∈ cs1 ++ cs2, ∃ cd seq,
        dictGet (parseDocs docs).armada_charts c.metadata_name = some cd ∧
        c = mkChart c.metadata_name cd seq) ∧
      (∀ c ∈ cs3, ∃ cd,
        (c.metadata_name, cd) ∈ (parseDocs docs).armada_charts ∧
        c = mkChart c.metadata_name cd false) := by
  have hc1' : (referencedCharts (parseDocs docs) ++
      orphanGroupCharts (parseDocs docs)).Nodup := hc1
  obtain ⟨cs1, cg', ac', he1, hm1, hd1, hcg, hac⟩ :=
    emitGroups_spec (parseDocs docs).chart_groups
      (parseDocs docs).chart_group (parseDocs docs).armada_charts hg1 hg2
      (List.nodup_append.mp hc1').1
      (fun n hn => hc2 n (List.mem_append_left _ hn))
  have hdisj := List.disjoint_of_nodup_append hc1'
  have hcg' : cg' = orphanGroups (parseDocs docs) := hcg
  have hget' : ∀ n ∈ orphanGroupCharts (parseDocs docs),
      dictGet ac' n = dictGet (parseDocs docs).armada_charts n := by
    intro n hn
    rw [hac]
    refine dictGet_filter _ n _ (fun v => ?_)
    simp only [decide_eq_true_eq]
    exact fun hmem => hdisj hmem hn
  have hocnd : (orphanClaimed cg').Nodup := by
    rw [hcg']
    exact (List.nodup_append.mp hc1').2.1
  have hocm : ∀ n ∈ orphanClaimed cg', (dictGet ac' n).isSome := by
    intro n hn
    rw [hcg'] at hn
    rw [hget' n hn]
    exact hc2 n (List.mem_append_right _ hn)
  obtain ⟨cs2, ac'', he2, hm2, hd2, hac2⟩ :=
    emitOrphanGroups_spec cg' ac' hocnd hocm
  refine ⟨cs1, cs2, leftoverCharts ac'', ?_, hm1, ?_, ?_, ?_, ?_⟩
  · simp only [getListOfCharts, he1, he2]
  · rw [hm2, hcg']
    rfl
  · rw [leftoverCharts_map_meta, hac2,
      dictKeys_filter (fun n => decide (n ∉ orphanClaimed cg')), hac,
      dictKeys_filter (fun n => decide (n ∉ claimedBy
        (parseDocs docs).chart_group (parseDocs docs).chart_groups)),
      List.filter_filter]
    unfold unclaimedCharts
    refine List.filter_congr ?_
    intro n hn
    rw [hcg']
    by_cases h1 : n ∈ claimedBy (parseDocs docs).chart_group
        (parseDocs docs).chart_groups <;>
      by_cases h2 : n ∈ orphanClaimed (orphanGroups (parseDocs docs)) <;>
        simp [claimedCharts, referencedCharts, orphanGroupCharts, h1, h2]
  · intro c hc
    rcases List.mem_append.mp hc with hc1m | hc2m
    · exact hd1 c hc1m
    · obtain ⟨cd, seq, hget, hch⟩ := hd2 c hc2m
      have hcmem : c.metadata_name ∈ orphanGroupCharts (parseDocs docs) := by
        have hmm : c.metadata_name ∈ orphanClaimed cg' := by
          rw [← hm2]
          exact List.mem_map_of_mem _ hc2m
        rw [hcg'] at hmm
        exact hmm
      refine ⟨cd, seq, ?_, hch⟩
      rw [← hget' c.metadata_name hcmem]
      exact hget
  · intro c hc
    have hc' : c ∈ ac''.map (fun e => mkChart e.1 e.2 false) := hc
    obtain ⟨e, he, hce⟩ := List.mem_map.mp hc'
    have he1m : e ∈ ac' := by
      rw [hac2] at he
      exact (List.mem_filter.mp he).1
    have he2m : e ∈ (parseDocs docs).armada_charts := by
      rw [hac] at he1m
      exact (List.mem_filter.mp he1m).1
    refine ⟨e.2, ?_, ?_⟩
    · rw [← hce]
      exact he2m
    · rw [← hce]
      rfl

/-! ## Release-prefix lemmas -/

theorem applyReleasePfx_append (p : String) (l1 l2 : List Chart) :
    applyReleasePfx p (l1 ++ l2) =
      applyReleasePfx p l1 ++ applyReleasePfx p l2 := by
  unfold applyReleasePfx
  by_cases hp : p ≠ ""
  · rw [if_pos hp, if_pos hp, if_pos hp, List.map_append]
  · rw [if_neg hp, if_neg hp, if_neg hp]

theorem applyReleasePfx_map_meta (p : String) (l : List Chart) :
    (applyReleasePfx p l).map Chart.metadata_name =
      l.map Chart.metadata_name := by
  unfold applyReleasePfx
  by_cases hp : p ≠ ""
  · rw [if_pos hp, List.map_map]
    exact List.map_congr_left (fun c _ => rfl)
  · rw [if_neg hp]

theorem applyReleasePfx_sequenced (p : String) (l : List Chart) (b : Bool)
    (h : ∀ c ∈ l, c.sequenced = b) :
    ∀ c ∈ applyReleasePfx p l, c.sequenced = b := by
  unfold applyReleasePfx
  by_cases hp : p ≠ ""
  · rw [if_pos hp]
    intro c hc
    obtain ⟨c0, hc0, rfl⟩ := List.mem_map.mp hc
    exact h c0 hc0
  · rw [if_neg hp]
    exact h

theorem applyReleasePfx_mem_release (p : String) (hp : p ≠ "")
    (l : List Chart) :
    ∀ c ∈ applyReleasePfx p l, ∃ c0 ∈ l,
      c.metadata_name = c0.metadata_name ∧
      c.release = p ++ "-" ++ c0.release := by
  unfold applyReleasePfx
  rw [if_pos hp]
  intro c hc
  obtain ⟨c0, hc0, rfl⟩ := List.mem_map.mp hc
  exact ⟨c0, hc0, rfl, rfl⟩

/-! ## C1 and C4 -/

/-- C1: on a manifest stream with distinct chart names, distinct group
references, and groups that claim only declared charts (each at most
once), `_get_list_of_charts` returns exactly one `Chart` per declared
chart document — the emitted names are a permutation of the declared
names, so none dropped and none duplicated — decomposed as the charts of
the manifest's declared group order first, then the charts of groups not
referenced by the manifest's chart-group list, then the never-claimed
charts last with `sequenced = false`. -/
theorem c1_chart_manifest_reader (docs : List ManifestDoc)
    (hcn : (chartDocNames docs).Nodup)
    (hg1 : (parseDocs docs).chart_groups.Nodup)
    (hg2 : ∀ g ∈ (parseDocs docs).chart_groups,
      (dictGet (parseDocs docs).chart_group g).isSome)
    (hc1 : (claimedCharts (parseDocs docs)).Nodup)
    (hc2 : ∀ n ∈ claimedCharts (parseDocs docs),
      (dictGet (parseDocs docs).armada_charts n).isSome) :
    ∃ cs1 cs2 cs3,
      getListOfCharts docs = some (cs1 ++ cs2 ++ cs3) ∧
      cs1.map Chart.metadata_name = referencedCharts (parseDocs docs) ∧
      cs2.map Chart.metadata_name = orphanGroupCharts (parseDocs docs) ∧
      cs3.map Chart.metadata_name = unclaimedCharts (parseDocs docs) ∧
      (∀ c ∈ cs3, c.sequenced = false) ∧
      ((cs1 ++ cs2 ++ cs3).map Chart.metadata_name).Perm
        (chartDocNames docs) := by
  obtain ⟨b1, b2, b3, heq, hm1, hm2, hm3, hdat12, hdat3⟩ :=
    getListOfCharts_spec docs hg1 hg2 hc1 hc2
  refine ⟨applyReleasePfx (parseDocs docs).release_pfx b1,
    applyReleasePfx (parseDocs docs).release_pfx b2,
    applyReleasePfx (parseDocs docs).release_pfx b3, ?_, ?_, ?_, ?_, ?_, ?_⟩
  · rw [heq, applyReleasePfx_append, applyReleasePfx_append]
  · rw [applyReleasePfx_map_meta]
    exact hm1
  · rw [applyReleasePfx_map_meta]
    exact hm2
  · rw [applyReleasePfx_map_meta]
    exact hm3
  · refine applyReleasePfx_sequenced _ b3 false ?_
    intro c hc
    obtain ⟨cd, _, hch⟩ := hdat3 c hc
    rw [hch]
    rfl
  · have hmm : (applyReleasePfx (parseDocs docs).release_pfx b1 ++
        applyReleasePfx (parseDocs docs).release_pfx b2 ++
        applyReleasePfx (parseDocs docs).release_pfx b3).map
          Chart.metadata_name =
        claimedCharts (parseDocs docs) ++ unclaimedCharts (parseDocs docs) := by
      rw [List.map_append, List.map_append, applyReleasePfx_map_meta,
        applyReleasePfx_map_meta, applyReleasePfx_map_meta, hm1, hm2, hm3]
      rfl
    rw [hmm]
    have hkeys := parseDocs_armada_keys docs hcn
    have hsub : ∀ n ∈ claimedCharts (parseDocs docs),
        n ∈ dictKeys (parseDocs docs).armada_charts := by
      intro n hn
      exact (dictGet_isSome_iff n _).mp (hc2 n hn)
    have hkeysnd : (dictKeys (parseDocs docs).armada_charts).Nodup := by
      rw [hkeys]
      exact hcn
    have h1 : (claimedCharts (parseDocs docs)).Perm
        ((dictKeys (parseDocs docs).armada_charts).filter
          (fun n => n ∈ claimedCharts (parseDocs docs))) := by
      rw [List.perm_ext_iff_of_nodup hc1 (hkeysnd.filter _)]
      intro a
      simp only [List.mem_filter, decide_eq_true_eq]
      exact ⟨fun ha => ⟨hsub a ha, ha⟩, fun ha => ha.2⟩
    have h2 := List.filter_append_perm
      (fun n => n ∈ claimedCharts (parseDocs docs))
      (dictKeys (parseDocs docs).armada_charts)
    have h3 : (dictKeys (parseDocs docs).armada_charts).filter
        (fun n => !(decide (n ∈ claimedCharts (parseDocs docs)))) =
        unclaimedCharts (parseDocs docs) := by
      unfold unclaimedCharts
      refine List.filter_congr ?_
      intro n hn
      simp
    have h5 : (unclaimedCharts (parseDocs docs)).Perm
        ((dictKeys (parseDocs docs).armada_charts).filter
          (fun n => !(decide (n ∈ claimedCharts (parseDocs docs))))) := by
      rw [h3]
    have hlast : (dictKeys (parseDocs docs).armada_charts).Perm
        (chartDocNames docs) := by
      rw [hkeys]
    exact List.Perm.trans (List.Perm.trans (List.Perm.append h1 h5) h2) hlast

/-- Witness for C1 at a concrete manifest stream with a referenced group,
an unreferenced group, and an unclaimed chart. -/
theorem c1_chart_manifest_reader_witness :
    ∃ cs1 cs2 cs3,
      getListOfCharts exampleDocs = some (cs1 ++ cs2 ++ cs3) ∧
      cs1.map Chart.metadata_name = referencedCharts (parseDocs exampleDocs) ∧
      cs2.map Chart.metadata_name =
        orphanGroupCharts (parseDocs exampleDocs) ∧
      cs3.map Chart.metadata_name = unclaimedCharts (parseDocs exampleDocs) ∧
      (∀ c ∈ cs3, c.sequenced = false) ∧
      ((cs1 ++ cs2 ++ cs3).map Chart.metadata_name).Perm
        (chartDocNames exampleDocs) :=
  c1_chart_manifest_reader exampleDocs (by decide) (by decide) (by decide)
    (by decide) (by decide)

/-- C4: on a well-formed manifest stream that declares a non-empty release
prefix `P`, every returned chart's release is `P ++ "-" ++ R` where `R` is
the release declared in that chart's document — the prefix is applied
exactly once — and a second run of `_get_list_of_charts` over the same
stream returns the identical list (so release names are never
double-prefixed by re-reading). -/
theorem c4_release_pfx (docs : List ManifestDoc)
    (hcn : (chartDocNames docs).Nodup)
    (hg1 : (parseDocs docs).chart_groups.Nodup)
    (hg2 : ∀ g ∈ (parseDocs docs).chart_groups,
      (dictGet (parseDocs docs).chart_group g).isSome)
    (hc1 : (claimedCharts (parseDocs docs)).Nodup)
    (hc2 : ∀ n ∈ claimedCharts (parseDocs docs),
      (dictGet (parseDocs docs).armada_charts n).isSome)
    (hp : (parseDocs docs).release_pfx ≠ "") :
    ∃ cs, getListOfCharts docs = some cs ∧
      (∀ c ∈ cs, ∃ cd, ManifestDoc.chart c.metadata_name cd ∈ docs ∧
        c.release = (parseDocs docs).release_pfx ++ "-" ++ cd.release) ∧
      (∀ cs', getListOfCharts docs = some cs' → cs' = cs) := by
  obtain ⟨b1, b2, b3, heq, hm1, hm2, hm3, hdat12, hdat3⟩ :=
    getListOfCharts_spec docs hg1 hg2 hc1 hc2
  refine ⟨_, heq, ?_, ?_⟩
  · intro c hc
    obtain ⟨c0, hc0, hmeta, hrel⟩ :=
      applyReleasePfx_mem_release _ hp _ c hc
    have hcd : ∃ cd, dictGet (parseDocs docs).armada_charts
        c0.metadata_name = some cd ∧ c0.release = cd.release := by
      rcases List.mem_append.mp hc0 with h12 | h3
      · obtain ⟨cd, seq, hget, hch⟩ := hdat12 c0 h12
        exact ⟨cd, hget, by rw [hch]; rfl⟩
      · obtain ⟨cd, hmem, hch⟩ := hdat3 c0 h3
        refine ⟨cd, ?_, by rw [hch]; rfl⟩
        have hkeysnd : (dictKeys (parseDocs docs).armada_charts).Nodup := by
          rw [parseDocs_armada_keys docs hcn]
          exact hcn
        exact dictGet_of_mem_nodup _ _ _ hkeysnd hmem
    obtain ⟨cd, hget, hrel0⟩ := hcd
    refine ⟨cd, ?_, ?_⟩
    · rw [hmeta]
      exact parseDocs_armada_mem docs c0.metadata_name cd hget
    · rw [hrel, hrel0]
  · intro cs' h'
    rw [heq] at h'
    exact (Option.some.inj h').symm

/-- Witness for C4 at the concrete manifest stream, whose declared release
prefix is "app". -/
theorem c4_release_pfx_witness :
    ∃ cs, getListOfCharts exampleDocs = some cs ∧
      (∀ c ∈ cs, ∃ cd,
        ManifestDoc.chart c.metadata_name cd ∈ exampleDocs ∧
        c.release = (parseDocs exampleDocs).release_pfx ++ "-" ++
          cd.release) ∧
      (∀ cs', getListOfCharts exampleDocs = some cs' → cs' = cs) :=
  c4_release_pfx exampleDocs (by decide) (by decide) (by decide)
    (by decide) (by decide) (by decide)

end KubeApp
